import Mathlib

/-!
Verification of the track-identifier codec, the feed reconciliation
performed by the technician station, the broadcast-status hook, and the
room-coordinator update rule of the Orange telehealth repository.

JavaScript strings are embedded as lists of characters (List Char) for
the codec, so that the splitting behaviour of String.prototype.split can
be reasoned about by structural induction.  Room-state records are
embedded as Lean structures mirroring app/types/Messages.ts, with
JavaScript optional fields embedded as Option and the truthiness test on
an optional string made explicit (strTruthy).
-/

set_option autoImplicit false

namespace Orange

/-! ### Definitions: track identifier codec

The encoder lives in app/routes/_room.$roomName.hospital.tsx, in the
construction of the broadcast user record: the template literal joining
a session id and a track name with the separator character.  The decoder
lives in app/hooks/usePulledVideoTrack.tsx: destructure the first two
segments of video.split, then require both to be truthy before a track
object is produced.
-/

/-- Embedding of JavaScript String.prototype.split with a one-character
separator: splits on every occurrence of the separator; the empty string
splits to a single empty segment. -/
def splitOnChar (sep : Char) : List Char → List (List Char)
  | [] => [[]]
  | c :: cs =>
    if c = sep then [] :: splitOnChar sep cs
    else
      match splitOnChar sep cs with
      | [] => [[c]]
      | p :: ps => (c :: p) :: ps

/-- Embedding of the template literal in the hospital route that forms
the broadcast track identifier: sessionId, the separator, then
trackName.  There is no validation in the source. -/
def encodeTrack (sessionId trackName : List Char) : List Char :=
  sessionId ++ '/' :: trackName

/-- Embedding of the parse in usePulledVideoTrack: destructure the first
two segments of video.split, keeping a track object only when both the
session id and the track name are truthy (present and non-empty). -/
def decodeTrack (video : List Char) : Option (List Char × List Char) :=
  let parts := splitOnChar '/' video
  let sessionId := parts.getD 0 []
  let trackName := parts.getD 1 []
  if sessionId ≠ [] ∧ trackName ≠ [] then some (sessionId, trackName) else none

/-! ### Definitions: participant record model (app/types/Messages.ts) -/

/-- Embedding of UserRole from app/types/Messages.ts. -/
inductive UserRole
  | regular
  | hospital
  | technician
  deriving DecidableEq

/-- Embedding of one entry of the cameras array of a hospital user
(app/types/Messages.ts): deviceId, an optional full track identifier,
and the enabled flag. -/
structure CameraInfo where
  deviceId : String
  trackName : Option String
  enabled : Bool
  deriving DecidableEq

/-- Embedding of the tracks field of User (app/types/Messages.ts).
Optional fields of the TypeScript type are embedded as Option. -/
structure UserTracks where
  audio : Option String
  audioEnabled : Option Bool
  audioUnavailable : Bool
  video : Option String
  videoEnabled : Option Bool
  screenshare : Option String
  screenShareEnabled : Option Bool
  cameras : Option (List CameraInfo)
  deriving DecidableEq

/-- Embedding of User from app/types/Messages.ts. -/
structure User where
  id : String
  name : String
  transceiverSessionId : Option String
  raisedHand : Bool
  speaking : Bool
  joined : Bool
  role : Option UserRole
  tracks : UserTracks
  deriving DecidableEq

/-- Embedding of the client-to-coordinator message constructors relevant
to the verified claims (ClientMessage in app/types/Messages.ts). -/
inductive ClientMsg
  | userUpdate (user : User)
  | userLeft
  | heartbeat
  deriving DecidableEq

/-- JavaScript truthiness of an optional string: an absent value and the
empty string are falsy, every other string is truthy. -/
def strTruthy : Option String → Bool
  | none => false
  | some s => s != ""

/-! ### Definitions: technician feed reconciliation
(app/routes/_room.$roomName.technician.tsx, hospitalFeeds) -/

/-- Embedding of the virtual user pushed for one camera slot of a
hospital user: id combines the user id and the device id, the camera
track moves to the singular video field, and the multi-camera fields are
cleared. -/
def cameraFeed (user : User) (index : Nat) (camera : CameraInfo) : User :=
  { user with
    id := user.id ++ "-camera-" ++ camera.deviceId
    name := user.name ++ " - Camera " ++ toString (index + 1)
    tracks := { user.tracks with
      video := camera.trackName
      videoEnabled := some camera.enabled
      screenshare := none
      screenShareEnabled := some false
      cameras := none } }

/-- Embedding of the virtual user pushed for the screenshare track of a
hospital user: the screenshare track moves to the singular video field
and the multi-camera fields are cleared. -/
def screenshareFeed (user : User) : User :=
  { user with
    id := user.id ++ "-screenshare"
    name := user.name ++ " - Screen"
    tracks := { user.tracks with
      video := user.tracks.screenshare
      videoEnabled := user.tracks.screenShareEnabled
      screenshare := none
      screenShareEnabled := some false
      cameras := none } }

/-- Embedding of the forEach loop over the cameras array in the
technician route, carrying the running index: push one camera feed for
each slot whose track name is truthy and whose enabled flag is set, in
array order. -/
def camFeedList (user : User) : Nat → List CameraInfo → List User
  | _, [] => []
  | i, c :: cs =>
    if strTruthy c.trackName && c.enabled then
      cameraFeed user i c :: camFeedList user (i + 1) cs
    else camFeedList user (i + 1) cs

/-- Embedding of the feed list produced for one hospital user inside the
flatMap of the technician route: when the cameras array is present and
non-empty, the camera feeds of the loop starting at index zero; then,
when the screenshare track is truthy, one screenshare feed. -/
def userFeeds (user : User) : List User :=
  (match user.tracks.cameras with
    | some cams => if cams.length > 0 then camFeedList user 0 cams else []
    | none => []) ++
  (if strTruthy user.tracks.screenshare then [screenshareFeed user] else [])

/-- Embedding of hospitalFeeds in the technician route: filter the other
users down to the hospital role, then flatMap each into its virtual
feeds. -/
def hospitalFeeds (otherUsers : List User) : List User :=
  (otherUsers.filter fun u => decide (u.role = some UserRole.hospital)).flatMap userFeeds

/-- Embedding of technicianUsers in the hospital route
(app/routes/_room.$roomName.hospital.tsx): the hospital station renders
the technician-role users directly, without transformation. -/
def hospitalStationFeeds (otherUsers : List User) : List User :=
  otherUsers.filter fun u => decide (u.role = some UserRole.technician)

/-! ### Definitions: useBroadcastStatus teardown
(app/hooks/useBroadcastStatus.ts, unmount handler) -/

/-- Embedding of the unmount handler of useBroadcastStatus: when the
identity id and name are truthy, it sends a userUpdate whose user has
joined set to false and whose tracks object carries only the
audioUnavailable flag; otherwise it sends nothing. -/
def unmountStatusMessage (identity : Option User) (raisedHand speaking : Bool)
    (sessionId : Option String) (audioUnavailable : Bool) : Option ClientMsg :=
  let id := identity.map User.id
  let name := identity.map User.name
  if strTruthy id && strTruthy name then
    some (ClientMsg.userUpdate
      { id := id.getD ""
        name := name.getD ""
        transceiverSessionId := sessionId
        raisedHand := raisedHand
        speaking := speaking
        joined := false
        role := none
        tracks :=
          { audio := none
            audioEnabled := none
            audioUnavailable := audioUnavailable
            video := none
            videoEnabled := none
            screenshare := none
            screenShareEnabled := none
            cameras := none } })
  else none

/-! ### Definitions: room coordinator update rule -/

/-- Error taxonomy of the coordinator update path relevant here. -/
inductive CoordError
  | invalidParticipantId
  | identityConflict
  deriving DecidableEq

/-- One connection session as seen by the coordinator: the participant
id it owns, if it has already bound one. -/
structure CoordSession where
  ownedId : Option String
  deriving DecidableEq

/-- Modelled from the spec: the Room Coordinator
(app/durableObjects/ChatRoom.server.ts) is not among the provided source
files, only its message types and its clients are.  Following the
specification, the update replaces the existing participant with the
same id wholesale, inserting at the end when absent. -/
def replaceUser (users : List User) (p : User) : List User :=
  if users.any fun u => u.id == p.id then
    users.map fun u => if u.id = p.id then p else u
  else users ++ [p]

/-- Modelled from the spec: the Room Coordinator
(app/durableObjects/ChatRoom.server.ts) is not among the provided source
files, only its message types and its clients are.  Following section
4.2 of the specification, applyUpdate validates that the participant id
is non-empty, rejects with IdentityConflict when the session already
owns a different id, and otherwise binds the session to the id and
replaces the participant wholesale in the room state.  A rejection
returns the session and the room state unchanged. -/
def applyUpdate (session : CoordSession) (users : List User) (p : User) :
    CoordSession × List User × Option CoordError :=
  if p.id = "" then (session, users, some CoordError.invalidParticipantId)
  else
    match session.ownedId with
    | some owned =>
      if owned = p.id then (⟨some p.id⟩, replaceUser users p, none)
      else (session, users, some CoordError.identityConflict)
    | none => (⟨some p.id⟩, replaceUser users p, none)

/-! ### Definitions: concrete fixtures used by the witnesses -/

/-- Camera slot d1 of the multi-camera scenario: track published and
enabled. -/
def d1cam : CameraInfo :=
  { deviceId := "d1", trackName := some "s1/v1", enabled := true }

/-- Camera slot d2 of the multi-camera scenario: track published but
disabled. -/
def d2cam : CameraInfo :=
  { deviceId := "d2", trackName := some "s1/v2", enabled := false }

/-- The hospital participant of the multi-camera scenario, with two
camera slots and an active screenshare. -/
def h1User : User :=
  { id := "h1", name := "Hospital A", transceiverSessionId := some "s1"
    raisedHand := false, speaking := false, joined := true
    role := some UserRole.hospital
    tracks :=
      { audio := some "s1/a1", audioEnabled := some true, audioUnavailable := false
        video := none, videoEnabled := some false
        screenshare := some "s1/scr", screenShareEnabled := some true
        cameras := some [d1cam, d2cam] } }

/-- A technician participant with a singular published video track. -/
def t1User : User :=
  { id := "t1", name := "Tech B", transceiverSessionId := some "s2"
    raisedHand := false, speaking := false, joined := true
    role := some UserRole.technician
    tracks :=
      { audio := some "s2/a1", audioEnabled := some true, audioUnavailable := false
        video := some "s2/v1", videoEnabled := some true
        screenshare := none, screenShareEnabled := some false
        cameras := none } }

/-! ### Lemmas about the codec -/

theorem splitOnChar_ne_nil (sep : Char) (l : List Char) : splitOnChar sep l ≠ [] := by
  induction l with
  | nil => simp [splitOnChar]
  | cons c cs ih =>
    simp only [splitOnChar]
    split
    · simp
    · split
      · simp
      · simp

theorem splitOnChar_of_not_mem (sep : Char) (l : List Char) (h : sep ∉ l) :
    splitOnChar sep l = [l] := by
  induction l with
  | nil => rfl
  | cons c cs ih =>
    have hc : ¬ c = sep := fun hc => h (hc ▸ List.mem_cons_self c cs)
    have hcs : sep ∉ cs := fun hm => h (List.mem_cons_of_mem c hm)
    simp [splitOnChar, hc, ih hcs]

theorem splitOnChar_append_sep (sep : Char) (s t : List Char) (h : sep ∉ s) :
    splitOnChar sep (s ++ sep :: t) = s :: splitOnChar sep t := by
  induction s with
  | nil => simp [splitOnChar]
  | cons c cs ih =>
    have hc : ¬ c = sep := fun hc => h (hc ▸ List.mem_cons_self c cs)
    have hcs : sep ∉ cs := fun hm => h (List.mem_cons_of_mem c hm)
    simp only [List.cons_append, splitOnChar, hc, if_false]
    rw [List.append_eq, ih hcs]

/-- Decomposition of a list at the first occurrence of a distinguished
element: whenever sep occurs in l, l splits as s followed by sep and t,
with no occurrence of sep in s. -/
theorem exists_first_sep (sep : Char) (l : List Char) (h : sep ∈ l) :
    ∃ s t, l = s ++ sep :: t ∧ sep ∉ s := by
  induction l with
  | nil => cases h
  | cons c cs ih =>
    by_cases hc : c = sep
    · exact ⟨[], cs, by simp [hc], by simp⟩
    · have hm : sep ∈ cs := by
        cases h with
        | head => exact absurd rfl hc
        | tail _ hm => exact hm
      obtain ⟨s, t, hst, hns⟩ := ih hm
      refine ⟨c :: s, t, by simp [hst], ?_⟩
      intro hmem
      cases hmem with
      | head => exact hc rfl
      | tail _ hmem => exact hns hmem

/-- Unfolding equation for decodeTrack, stated without local lets. -/
theorem decodeTrack_eq (video : List Char) :
    decodeTrack video =
      if (splitOnChar '/' video).getD 0 [] ≠ [] ∧ (splitOnChar '/' video).getD 1 [] ≠ [] then
        some ((splitOnChar '/' video).getD 0 [], (splitOnChar '/' video).getD 1 [])
      else none := rfl

/-! ### Claim theorems: codec -/

/-- C1: Codec round-trip.  For every pair of non-empty session id and
track name neither of which contains the separator, decoding the
encoded token yields back exactly the original pair. -/
theorem decode_encode_roundtrip (s t : List Char)
    (hs : s ≠ []) (ht : t ≠ []) (hsm : '/' ∉ s) (htm : '/' ∉ t) :
    decodeTrack (encodeTrack s t) = some (s, t) := by
  rw [encodeTrack, decodeTrack_eq, splitOnChar_append_sep _ _ _ hsm,
    splitOnChar_of_not_mem _ _ htm]
  simp [hs, ht]

/-- Witness for C1 at a concrete pair. -/
theorem decode_encode_roundtrip_witness :
    decodeTrack (encodeTrack ['a', 'b'] ['c']) = some (['a', 'b'], ['c']) :=
  decode_encode_roundtrip ['a', 'b'] ['c'] (by decide) (by decide) (by decide) (by decide)

/-- C3 counterexample: a token with two separators is not rejected; the
decoder silently truncates it to its first two segments instead of
failing. -/
theorem decodeTrack_truncates_cex :
    decodeTrack ['a', '/', 'b', '/', 'c'] = some (['a'], ['b']) := by decide

/-- C3 (amended): the decoder splits on every separator occurrence and
keeps the first two segments.  A token with more than one separator is
silently truncated to its first two segments rather than rejected; a
token with zero separators, or whose first or second segment is empty,
yields no value (there is no MalformedTrackToken error, the parse just
produces no track object). -/
theorem decodeTrack_malformed (s t rest u : List Char)
    (hs : '/' ∉ s) (ht : '/' ∉ t) (hns : s ≠ []) (hnt : t ≠ []) (hu : '/' ∉ u) :
    decodeTrack (s ++ '/' :: (t ++ '/' :: rest)) = some (s, t)
      ∧ decodeTrack u = none
      ∧ decodeTrack ('/' :: u) = none
      ∧ decodeTrack (s ++ ['/']) = none := by
  refine ⟨?_, ?_, ?_, ?_⟩
  · rw [decodeTrack_eq, splitOnChar_append_sep _ _ _ hs, splitOnChar_append_sep _ _ _ ht]
    simp [hns, hnt]
  · rw [decodeTrack_eq, splitOnChar_of_not_mem _ _ hu]
    simp
  · have hsplit : splitOnChar '/' ('/' :: u) = [] :: splitOnChar '/' u := by
      simp [splitOnChar]
    rw [decodeTrack_eq, hsplit]
    simp
  · have hsingle : (s ++ ['/'] : List Char) = s ++ '/' :: [] := rfl
    rw [decodeTrack_eq, hsingle, splitOnChar_append_sep _ _ _ hs]
    simp [splitOnChar]

/-- Witness for the amended C3 at concrete tokens. -/
theorem decodeTrack_malformed_witness :
    decodeTrack (['a'] ++ '/' :: (['b'] ++ '/' :: ['c'])) = some (['a'], ['b'])
      ∧ decodeTrack ['x'] = none
      ∧ decodeTrack ('/' :: ['x']) = none
      ∧ decodeTrack (['a'] ++ ['/']) = none :=
  decodeTrack_malformed ['a'] ['b'] ['c'] ['x']
    (by decide) (by decide) (by decide) (by decide) (by decide)

/-- C7 counterexample: an invalid session id containing the separator is
not rejected; the encoder still produces a token, and the produced token
no longer round-trips. -/
theorem encodeTrack_cex :
    encodeTrack ['a', '/', 'b'] ['c'] = ['a', '/', 'b', '/', 'c']
      ∧ decodeTrack (encodeTrack ['a', '/', 'b'] ['c']) = some (['a'], ['b']) :=
  ⟨rfl, by decide⟩

/-- C7 (amended): the encoder performs no validation.  It produces the
unchecked concatenation for every input, and whenever either input is
empty or contains the separator the resulting token fails to round-trip
back to the original pair. -/
theorem encodeTrack_no_validation (s t : List Char)
    (h : '/' ∈ s ∨ '/' ∈ t ∨ s = [] ∨ t = []) :
    encodeTrack s t = s ++ '/' :: t ∧ decodeTrack (encodeTrack s t) ≠ some (s, t) := by
  refine ⟨rfl, ?_⟩
  by_cases hs : '/' ∈ s
  · obtain ⟨s₁, s₂, hdec, hs₁⟩ := exists_first_sep '/' s hs
    intro hcontra
    rw [encodeTrack, decodeTrack_eq, hdec, List.append_assoc, List.cons_append,
      splitOnChar_append_sep _ _ _ hs₁] at hcontra
    obtain ⟨r, rs, hr⟩ := List.exists_cons_of_ne_nil
      (splitOnChar_ne_nil '/' (s₂ ++ '/' :: t))
    rw [hr] at hcontra
    simp only [List.getD_cons_zero, List.getD_cons_succ] at hcontra
    split at hcontra
    · have hfst : s₁ = s₁ ++ '/' :: s₂ :=
        ((Prod.mk.injEq _ _ _ _).mp (Option.some.inj hcontra)).1
      have hlen := congrArg List.length hfst
      simp [List.length_append] at hlen
    · exact Option.noConfusion hcontra
  · by_cases hs0 : s = []
    · subst hs0
      intro hcontra
      have hsplit : splitOnChar '/' (encodeTrack [] t) = [] :: splitOnChar '/' t := by
        simp [encodeTrack, splitOnChar]
      rw [decodeTrack_eq, hsplit] at hcontra
      simp at hcontra
    · by_cases ht : '/' ∈ t
      · obtain ⟨t₁, t₂, hdec, ht₁⟩ := exists_first_sep '/' t ht
        intro hcontra
        rw [encodeTrack, decodeTrack_eq, hdec, splitOnChar_append_sep _ _ _ hs,
          splitOnChar_append_sep _ _ _ ht₁] at hcontra
        simp only [List.getD_cons_zero, List.getD_cons_succ] at hcontra
        split at hcontra
        · have hsnd : t₁ = t₁ ++ '/' :: t₂ :=
            ((Prod.mk.injEq _ _ _ _).mp (Option.some.inj hcontra)).2
          have hlen := congrArg List.length hsnd
          simp [List.length_append] at hlen
        · exact Option.noConfusion hcontra
      · have ht0 : t = [] := by
          rcases h with h | h | h | h
          · exact absurd h hs
          · exact absurd h ht
          · exact absurd h hs0
          · exact h
        subst ht0
        intro hcontra
        rw [encodeTrack, decodeTrack_eq, splitOnChar_append_sep _ _ _ hs] at hcontra
        simp [splitOnChar] at hcontra

/-- Witness for the amended C7 at a concrete invalid pair. -/
theorem encodeTrack_no_validation_witness :
    encodeTrack ['a', '/', 'b'] ['c', 'd'] = ['a', '/', 'b'] ++ '/' :: ['c', 'd']
      ∧ decodeTrack (encodeTrack ['a', '/', 'b'] ['c', 'd'])
          ≠ some (['a', '/', 'b'], ['c', 'd']) :=
  encodeTrack_no_validation ['a', '/', 'b'] ['c', 'd'] (Or.inl (by decide))

/-! ### Lemmas about the reconciler -/

/-- On optional strings that are not the present-but-empty value,
truthiness coincides with presence. -/
theorem strTruthy_eq_isSome (o : Option String) (h : o ≠ some "") :
    strTruthy o = o.isSome := by
  cases o with
  | none => rfl
  | some s =>
    have hs : s ≠ "" := fun he => h (he ▸ rfl)
    simp [strTruthy, hs]

/-- The ids of the camera feeds produced from a camera array (at any
loop offset) are exactly the ids derived from the slots whose track is
present and enabled, in array order. -/
theorem camFeedList_map_id (u : User) (cams : List CameraInfo) (n : Nat)
    (h : ∀ c ∈ cams, c.trackName ≠ some "") :
    (camFeedList u n cams).map User.id
      = (cams.filter fun c => c.trackName.isSome && c.enabled).map
          (fun c => u.id ++ "-camera-" ++ c.deviceId) := by
  induction cams generalizing n with
  | nil => rfl
  | cons c cs ih =>
    have hc : strTruthy c.trackName = c.trackName.isSome :=
      strTruthy_eq_isSome _ (h c (List.mem_cons_self c cs))
    have hcs : ∀ x ∈ cs, x.trackName ≠ some "" := fun x hx => h x (List.mem_cons_of_mem c hx)
    by_cases hcase : (c.trackName.isSome && c.enabled) = true
    · simp [camFeedList, List.filter_cons, hc, hcase, ih (n + 1) hcs, cameraFeed]
    · simp [camFeedList, List.filter_cons, hc, hcase, ih (n + 1) hcs]

/-- The ids of the feeds produced for one user are the camera-derived
ids of the present-and-enabled slots in array order, followed by the
screenshare id when a screenshare track is present. -/
theorem userFeeds_map_id (u : User)
    (hc : ∀ c ∈ u.tracks.cameras.getD [], c.trackName ≠ some "")
    (hss : u.tracks.screenshare ≠ some "") :
    (userFeeds u).map User.id
      = ((u.tracks.cameras.getD []).filter fun c => c.trackName.isSome && c.enabled).map
          (fun c => u.id ++ "-camera-" ++ c.deviceId)
        ++ (if u.tracks.screenshare.isSome then [u.id ++ "-screenshare"] else []) := by
  rw [userFeeds, List.map_append]
  congr 1
  · cases hcams : u.tracks.cameras with
    | none => simp
    | some cams =>
      rw [hcams] at hc
      simp only [Option.getD_some] at hc ⊢
      by_cases hlen : cams.length > 0
      · simpa [hlen] using camFeedList_map_id u cams 0 hc
      · have hnil : cams = [] := List.length_eq_zero.mp (by omega)
        subst hnil
        simp
  · rw [strTruthy_eq_isSome _ hss]
    cases hssv : u.tracks.screenshare with
    | none => simp
    | some v =>
      simp [screenshareFeed]

/-- Feed ids of a whole roster: concatenation of the per-user blocks in
roster order. -/
theorem flatMap_userFeeds_map_id (l : List User)
    (h : ∀ u ∈ l, (∀ c ∈ u.tracks.cameras.getD [], c.trackName ≠ some "")
        ∧ u.tracks.screenshare ≠ some "") :
    (l.flatMap userFeeds).map User.id
      = l.flatMap (fun u =>
          ((u.tracks.cameras.getD []).filter fun c => c.trackName.isSome && c.enabled).map
            (fun c => u.id ++ "-camera-" ++ c.deviceId)
          ++ (if u.tracks.screenshare.isSome then [u.id ++ "-screenshare"] else [])) := by
  induction l with
  | nil => rfl
  | cons u us ih =>
    rw [List.flatMap_cons, List.flatMap_cons, List.map_append,
      userFeeds_map_id u (h u (List.mem_cons_self u us)).1 (h u (List.mem_cons_self u us)).2,
      ih (fun x hx => h x (List.mem_cons_of_mem u hx))]

/-- Every member of a camera feed list is a camera feed of the
originating user. -/
theorem mem_camFeedList (u : User) (n : Nat) (cams : List CameraInfo) (f : User)
    (hf : f ∈ camFeedList u n cams) : ∃ i c, f = cameraFeed u i c := by
  induction cams generalizing n with
  | nil => cases hf
  | cons c cs ih =>
    rw [camFeedList] at hf
    split at hf
    · cases hf with
      | head => exact ⟨n, c, rfl⟩
      | tail _ hmem => exact ih (n + 1) hmem
    · exact ih (n + 1) hf

/-- Every feed produced by the reconciler has its multi-camera fields
cleared. -/
theorem mem_hospitalFeeds_cleared (users : List User) (f : User)
    (hf : f ∈ hospitalFeeds users) :
    f.tracks.cameras = none ∧ f.tracks.screenshare = none := by
  rw [hospitalFeeds, List.mem_flatMap] at hf
  obtain ⟨u, hu, hfu⟩ := hf
  rw [userFeeds, List.mem_append] at hfu
  cases hfu with
  | inl hcam =>
    cases hcams : u.tracks.cameras with
    | none =>
      rw [hcams] at hcam
      replace hcam : f ∈ ([] : List User) := hcam
      cases hcam
    | some cams =>
      rw [hcams] at hcam
      replace hcam : f ∈ (if cams.length > 0 then camFeedList u 0 cams else []) := hcam
      by_cases hlen : cams.length > 0
      · rw [if_pos hlen] at hcam
        obtain ⟨i, c, hfeq⟩ := mem_camFeedList u 0 cams f hcam
        subst hfeq
        exact ⟨rfl, rfl⟩
      · rw [if_neg hlen] at hcam
        cases hcam
  | inr hss =>
    split at hss
    · have hfeq : f = screenshareFeed u := List.mem_singleton.mp hss
      subst hfeq
      exact ⟨rfl, rfl⟩
    · cases hss

/-- A user whose cameras and screenshare fields are both absent produces
no feeds. -/
theorem userFeeds_eq_nil (f : User)
    (h1 : f.tracks.cameras = none) (h2 : f.tracks.screenshare = none) :
    userFeeds f = [] := by
  rw [userFeeds, h1, h2]
  rfl

/-! ### Claim theorems: reconciler -/

/-- C2: multi-camera explosion.  For a hospital-role participant with a
present cameras array (whose present track identifiers are non-empty,
per the TrackRef invariant), reconciliation emits exactly one feed per
slot whose track is present and enabled, with id built from the
participant id and device id, in array order, plus exactly one trailing
screenshare feed (when the screenshare track is present) whose id is the
participant id followed by the screenshare suffix and whose enabled flag
equals screenShareEnabled. -/
theorem multiCamera_explosion (u : User) (cams : List CameraInfo)
    (hrole : u.role = some UserRole.hospital)
    (hcams : u.tracks.cameras = some cams)
    (hvalid : ∀ c ∈ cams, c.trackName ≠ some "")
    (hss : u.tracks.screenshare ≠ some "") :
    (hospitalFeeds [u]).map User.id
        = (cams.filter fun c => c.trackName.isSome && c.enabled).map
            (fun c => u.id ++ "-camera-" ++ c.deviceId)
          ++ (if u.tracks.screenshare.isSome then [u.id ++ "-screenshare"] else [])
      ∧ (u.tracks.screenshare.isSome = true →
          ∃ f ∈ hospitalFeeds [u],
            f.id = u.id ++ "-screenshare"
              ∧ f.tracks.videoEnabled = u.tracks.screenShareEnabled) := by
  have hfeeds : hospitalFeeds [u] = userFeeds u := by
    rw [hospitalFeeds]
    simp [hrole]
  constructor
  · rw [hfeeds]
    have := userFeeds_map_id u (by rw [hcams]; simpa using hvalid) hss
    rw [hcams] at this
    simpa using this
  · intro hsome
    refine ⟨screenshareFeed u, ?_, rfl, rfl⟩
    rw [hfeeds, userFeeds]
    apply List.mem_append_right
    rw [strTruthy_eq_isSome _ hss, hsome, if_pos rfl]
    exact List.mem_singleton.mpr rfl

/-- Witness for C2: the two-camera scenario of the specification yields
exactly the enabled-camera feed and the screenshare feed. -/
theorem multiCamera_explosion_witness :
    (hospitalFeeds [h1User]).map User.id = ["h1-camera-d1", "h1-screenshare"] := by
  have h := multiCamera_explosion h1User [d1cam, d2cam] rfl rfl (by decide) (by decide)
  exact h.1.trans (by decide)

/-- C4: reconciliation determinism.  The feed transformation is a pure
function of the roster value: equal inputs produce equal feed arrays,
with the same ids in the same order. -/
theorem hospitalFeeds_deterministic (s₁ s₂ : List User) (h : s₁ = s₂) :
    hospitalFeeds s₁ = hospitalFeeds s₂
      ∧ (hospitalFeeds s₁).map User.id = (hospitalFeeds s₂).map User.id := by
  subst h
  exact ⟨rfl, rfl⟩

/-- Witness for C4 at a concrete roster. -/
theorem hospitalFeeds_deterministic_witness :
    hospitalFeeds [h1User] = hospitalFeeds [h1User]
      ∧ (hospitalFeeds [h1User]).map User.id = (hospitalFeeds [h1User]).map User.id :=
  hospitalFeeds_deterministic [h1User] [h1User] rfl

/-- C5: output ordering.  The emitted feed ids are grouped by
participant in roster order, and within one participant the camera feeds
come in camera-array order followed by the screenshare feed last. -/
theorem hospitalFeeds_ordering (users : List User)
    (hvalid : ∀ u ∈ users, (∀ c ∈ u.tracks.cameras.getD [], c.trackName ≠ some "")
        ∧ u.tracks.screenshare ≠ some "") :
    (hospitalFeeds users).map User.id
      = (users.filter fun u => decide (u.role = some UserRole.hospital)).flatMap
          (fun u =>
            ((u.tracks.cameras.getD []).filter fun c => c.trackName.isSome && c.enabled).map
              (fun c => u.id ++ "-camera-" ++ c.deviceId)
            ++ (if u.tracks.screenshare.isSome then [u.id ++ "-screenshare"] else [])) := by
  rw [hospitalFeeds]
  exact flatMap_userFeeds_map_id _
    (fun u hu => hvalid u (List.mem_of_mem_filter hu))

/-- Witness for C5 at a concrete two-user roster. -/
theorem hospitalFeeds_ordering_witness :
    (hospitalFeeds [h1User, t1User]).map User.id
      = ([h1User, t1User].filter fun u => decide (u.role = some UserRole.hospital)).flatMap
          (fun u =>
            ((u.tracks.cameras.getD []).filter fun c => c.trackName.isSome && c.enabled).map
              (fun c => u.id ++ "-camera-" ++ c.deviceId)
            ++ (if u.tracks.screenshare.isSome then [u.id ++ "-screenshare"] else [])) :=
  hospitalFeeds_ordering [h1User, t1User] (by decide)

/-- C6 counterexample: a technician-role participant with a present
singular video track contributes no feed at all to the technician
reconciliation, so no feed with id equal to the participant id is
emitted. -/
theorem singularVideo_cex :
    t1User.role ≠ some UserRole.hospital
      ∧ t1User.tracks.video.isSome = true
      ∧ hospitalFeeds [t1User] = [] := by
  refine ⟨by decide, rfl, rfl⟩

/-- C6 (amended): participants whose role is not the multi-camera role
contribute no feeds to the technician reconciliation (restricting the
roster to hospital-role users leaves its output unchanged); it is the
hospital station that shows such participants, rendering each
technician-role participant directly as a single feed that is the
participant record itself (hence with id equal to the participant id). -/
theorem nonMultiCamera_feeds (users : List User) :
    (∀ f, f ∈ hospitalStationFeeds users ↔ f ∈ users ∧ f.role = some UserRole.technician)
      ∧ hospitalFeeds users
          = hospitalFeeds (users.filter fun u => decide (u.role = some UserRole.hospital)) := by
  constructor
  · intro f
    rw [hospitalStationFeeds, List.mem_filter]
    simp
  · rw [hospitalFeeds, hospitalFeeds, List.filter_filter]
    simp

/-- Witness for the amended C6 at a concrete roster. -/
theorem nonMultiCamera_feeds_witness :
    t1User ∈ hospitalStationFeeds [h1User, t1User]
      ∧ hospitalFeeds [h1User, t1User]
          = hospitalFeeds ([h1User, t1User].filter fun u =>
              decide (u.role = some UserRole.hospital)) := by
  refine ⟨?_, (nonMultiCamera_feeds [h1User, t1User]).2⟩
  exact ((nonMultiCamera_feeds [h1User, t1User]).1 t1User).mpr
    ⟨List.mem_cons_of_mem _ (List.mem_cons_self _ _), rfl⟩

/-- C9: non-re-expandable feeds.  Every feed emitted by the technician
reconciliation has both multi-camera fields absent, and consequently
reconciling the output of reconciliation emits nothing. -/
theorem feeds_not_reexpandable (users : List User) :
    (∀ f ∈ hospitalFeeds users,
        f.tracks.cameras = none ∧ f.tracks.screenshare = none ∧ userFeeds f = [])
      ∧ hospitalFeeds (hospitalFeeds users) = [] := by
  constructor
  · intro f hf
    obtain ⟨h1, h2⟩ := mem_hospitalFeeds_cleared users f hf
    exact ⟨h1, h2, userFeeds_eq_nil f h1 h2⟩
  · rw [hospitalFeeds, List.flatMap_eq_nil_iff]
    intro f hf
    have hmem : f ∈ hospitalFeeds users := List.mem_of_mem_filter hf
    obtain ⟨h1, h2⟩ := mem_hospitalFeeds_cleared users f hmem
    exact userFeeds_eq_nil f h1 h2

/-- Witness for C9 at the camera feed of the concrete scenario. -/
theorem feeds_not_reexpandable_witness :
    (cameraFeed h1User 0 d1cam).tracks.cameras = none
      ∧ (cameraFeed h1User 0 d1cam).tracks.screenshare = none
      ∧ userFeeds (cameraFeed h1User 0 d1cam) = [] := by
  have hmem : cameraFeed h1User 0 d1cam ∈ hospitalFeeds [h1User] := by
    have hEq : hospitalFeeds [h1User]
        = [cameraFeed h1User 0 d1cam, screenshareFeed h1User] := by decide
    rw [hEq]
    exact List.mem_cons_self _ _
  exact (feeds_not_reexpandable [h1User]).1 _ hmem

/-! ### Claim theorems: coordinator and broadcast-status hook -/

/-- C8: identity exclusivity with atomicity.  When a session is already
bound to a participant id and an update arrives whose (non-empty)
participant id differs from the bound one, the update is rejected with
IdentityConflict, the session keeps its prior binding, and the room
state after the rejected update equals the room state before it. -/
theorem applyUpdate_identityConflict_atomic (session : CoordSession) (users : List User)
    (p : User) (a : String)
    (hbound : session.ownedId = some a) (hdiff : p.id ≠ a) (hne : p.id ≠ "") :
    applyUpdate session users p = (session, users, some CoordError.identityConflict) := by
  have hda : ¬ a = p.id := fun h => hdiff h.symm
  rw [applyUpdate, if_neg hne, hbound]
  exact if_neg hda

/-- Witness for C8: a session bound to participant id a rejects an
update carrying participant id b, leaving the state unchanged. -/
theorem applyUpdate_identityConflict_witness :
    applyUpdate ⟨some "a"⟩ [h1User] { t1User with id := "b" }
      = (⟨some "a"⟩, [h1User], some CoordError.identityConflict) :=
  applyUpdate_identityConflict_atomic ⟨some "a"⟩ [h1User] { t1User with id := "b" } "a"
    rfl (by decide) (by decide)

/-- C10: departure signalling.  When the broadcast-status hook is torn
down with a known identity, it sends a final userUpdate whose user has
joined set to false and whose tracks object carries only the
audioUnavailable flag, with no track identifiers; it does not send a
userLeft message. -/
theorem broadcastStatus_unmount_message (ident : User) (rh sp : Bool)
    (sid : Option String) (au : Bool)
    (hid : ident.id ≠ "") (hname : ident.name ≠ "") :
    unmountStatusMessage (some ident) rh sp sid au
        = some (ClientMsg.userUpdate
            { id := ident.id, name := ident.name, transceiverSessionId := sid
              raisedHand := rh, speaking := sp, joined := false, role := none
              tracks :=
                { audio := none, audioEnabled := none, audioUnavailable := au
                  video := none, videoEnabled := none, screenshare := none
                  screenShareEnabled := none, cameras := none } })
      ∧ unmountStatusMessage (some ident) rh sp sid au ≠ some ClientMsg.userLeft := by
  have hmsg : unmountStatusMessage (some ident) rh sp sid au
      = some (ClientMsg.userUpdate
          { id := ident.id, name := ident.name, transceiverSessionId := sid
            raisedHand := rh, speaking := sp, joined := false, role := none
            tracks :=
              { audio := none, audioEnabled := none, audioUnavailable := au
                video := none, videoEnabled := none, screenshare := none
                screenShareEnabled := none, cameras := none } }) := by
    rw [unmountStatusMessage]
    simp [strTruthy, hid, hname]
  exact ⟨hmsg, by simp [hmsg]⟩

/-- Witness for C10 at a concrete identity. -/
theorem broadcastStatus_unmount_message_witness :
    unmountStatusMessage (some t1User) false false (some "s2") false
        ≠ some ClientMsg.userLeft
      ∧ (unmountStatusMessage (some t1User) false false (some "s2") false).isSome = true := by
  have h := broadcastStatus_unmount_message t1User false false (some "s2") false
    (by decide) (by decide)
  exact ⟨h.2, by rw [h.1]; rfl⟩

end Orange
